import Mathlib

/-!
Shallow embedding of the delt-server session coordinator and global resolver
(`src/handlers/session.rs`, `src/handlers/global.rs`, `src/types.rs`).

Modelling conventions:
* `chrono::NaiveDateTime` timestamps are integers (milliseconds); a
  `chrono::Duration` (signed) is `Int`, a `std::time::Duration` (unsigned)
  is `Nat` (milliseconds).
* `chrono::Duration::to_std()` fails on negative durations; `.to_std().unwrap()`
  is modelled by `toStd : Int → Option Nat`, `none` standing for the panic.
* Rust `Duration - Duration` panics on underflow; modelled by `durSub`.
* `HashMap`s are association lists with insert-replaces-existing semantics;
  iteration order of Rust HashMaps is abstracted as the list order.
* `Uuid` entity ids are `Nat`; `EntityId::new()` draws from an explicit
  supply list threaded through the operations, and exhausting the supply
  yields `none` (the real loop would keep drawing random uuids).
* JSON payloads (`display`, `attributes`, `position`, ...) of an `Entity`
  are abstracted into an opaque `payload : Nat`; no verified property
  inspects them.  The `manager` field is kept verbatim.
* Fallible code (any reachable `unwrap` panic) returns `Option`.
-/

namespace DeltServer

/-- Embeds `chrono::Duration::to_std().unwrap()` on a signed millisecond duration:
panics (`none`) when the duration is negative. -/
def toStd (d : Int) : Option Nat :=
  if 0 ≤ d then some d.toNat else none

/-- Rust `std::time::Duration` subtraction: panics (`none`) on underflow. -/
def durSub (a b : Nat) : Option Nat :=
  if b ≤ a then some (a - b) else none

/-- Embeds `chrono::Duration::num_seconds()` of a millisecond duration: whole
seconds, truncated toward zero (as chrono does). -/
def numSecondsOfMs (ms : Int) : Int :=
  if 0 ≤ ms then ((ms.toNat / 1000 : Nat) : Int) else -(((-ms).toNat / 1000 : Nat) : Int)

/-! ### Association lists (embedding of `HashMap`) -/

/-- Embeds `HashMap::get`. -/
def lookupA {α β : Type} [DecidableEq α] (k : α) : List (α × β) → Option β
  | [] => none
  | (k', v) :: rest => if k = k' then some v else lookupA k rest

/-- Embeds `HashMap::remove` (drops the key). -/
def eraseA {α β : Type} [DecidableEq α] (k : α) (l : List (α × β)) : List (α × β) :=
  l.filter (fun p => p.1 ≠ k)

/-- Embeds `HashMap::insert` (replaces any existing binding). -/
def insertA {α β : Type} [DecidableEq α] (k : α) (v : β) (l : List (α × β)) : List (α × β) :=
  (k, v) :: eraseA k l

/-- Embeds `HashMap::contains_key`. -/
def containsA {α β : Type} [DecidableEq α] (k : α) (l : List (α × β)) : Bool :=
  (lookupA k l).isSome

@[simp] theorem lookupA_nil {α β : Type} [DecidableEq α] (k : α) :
    lookupA k ([] : List (α × β)) = none := rfl

@[simp] theorem lookupA_cons {α β : Type} [DecidableEq α] (k k' : α) (v : β) (l : List (α × β)) :
    lookupA k ((k', v) :: l) = if k = k' then some v else lookupA k l := rfl

theorem lookupA_eraseA {α β : Type} [DecidableEq α] (k j : α) (l : List (α × β)) :
    lookupA k (eraseA j l) = if k = j then none else lookupA k l := by
  induction l with
  | nil => simp [eraseA]
  | cons p rest ih =>
    obtain ⟨k', v⟩ := p
    by_cases hkj : k = j <;> by_cases hk : k = k' <;> by_cases h' : k' = j <;>
      simp_all [eraseA, List.filter, lookupA]

theorem lookupA_insertA {α β : Type} [DecidableEq α] (k j : α) (v : β) (l : List (α × β)) :
    lookupA k (insertA j v l) = if k = j then some v else lookupA k l := by
  by_cases h : k = j <;> simp [insertA, lookupA, h, lookupA_eraseA]

/-! ### Entity registry (`types.rs`, `Entities`) -/

abbrev UserId := String
abbrev EntityId := Nat

/-- Embeds `types.rs` `Entity`.  `display`, `attributes`, `position`, `entity_type`
and the open extension fields are opaque JSON payloads abstracted into
`payload`; only `manager` is inspected by the coordinator logic. -/
structure Entity where
  manager : UserId
  payload : Nat
deriving DecidableEq, Repr

/-- Embeds `types.rs` `Entities(pub HashMap<EntityId, Entity>)`. -/
structure Entities where
  map : List (EntityId × Entity)
deriving DecidableEq, Repr

namespace Entities

/-- Embeds `HashMap::get`. -/
def lookup (es : Entities) (id : EntityId) : Option Entity :=
  lookupA id es.map

/-- Occupancy test used by `Entities::insert`'s entry loop. -/
def contains (es : Entities) (id : EntityId) : Bool :=
  (es.lookup id).isSome

/-- Embeds `Entities::update` — a plain `HashMap::insert`. -/
def update (es : Entities) (id : EntityId) (e : Entity) : Entities :=
  ⟨insertA id e es.map⟩

/-- Embeds `Entities::remove`'s mutation (the returned occupant is read via `lookup`). -/
def erase (es : Entities) (id : EntityId) : Entities :=
  ⟨eraseA id es.map⟩

/-- Embeds `Entities::managed`: ids of the entities whose `manager` is the user. -/
def managed (es : Entities) (u : UserId) : List EntityId :=
  (es.map.filter (fun p => p.2.manager = u)).map (·.1)

/-- Embeds `Entities::set_managed`: reassign each listed id that is present. -/
def setManaged (es : Entities) (ids : List EntityId) (newManager : UserId) : Entities :=
  ids.foldl
    (fun acc id =>
      match acc.lookup id with
      | some e => acc.update id { e with manager := newManager }
      | none => acc)
    es

end Entities

/-- The loop body of `Entities::insert`: try the candidate id; while it is
occupied draw the next id from the fresh-id supply (`EntityId::new()`);
insert at the first vacant id.  Returns the assigned id, the updated
registry and the unconsumed supply; `none` models exhausting the modelled
supply (the real loop would keep drawing random uuids). -/
def insertLoop (es : Entities) (e : Entity) : EntityId → List EntityId →
    Option (EntityId × Entities × List EntityId)
  | cand, [] =>
    if es.contains cand then none else some (cand, es.update cand e, [])
  | cand, c :: rest =>
    if es.contains cand then insertLoop es e c rest
    else some (cand, es.update cand e, c :: rest)

/-- Embeds `Entities::insert(proposed_id, entity) → assigned_id`, with the fresh-id
supply made explicit. -/
def Entities.insert (es : Entities) (id : EntityId) (e : Entity) (supply : List EntityId) :
    Option (EntityId × Entities × List EntityId) :=
  insertLoop es e id supply

theorem insertLoop_spec (es : Entities) (e : Entity) (cand : EntityId)
    (supply : List EntityId) (aid : EntityId) (es' : Entities) (rest : List EntityId)
    (h : insertLoop es e cand supply = some (aid, es', rest)) :
    es.contains aid = false ∧ es' = es.update aid e := by
  induction supply generalizing cand with
  | nil =>
    rw [insertLoop] at h
    by_cases hc : es.contains cand
    · simp [hc] at h
    · simp [hc] at h
      obtain ⟨rfl, rfl, rfl⟩ := h
      exact ⟨by simpa using hc, rfl⟩
  | cons c cs ih =>
    rw [insertLoop] at h
    by_cases hc : es.contains cand
    · simp only [hc, if_true] at h
      exact ih c h
    · simp [hc] at h
      obtain ⟨rfl, rfl, rfl⟩ := h
      exact ⟨by simpa using hc, rfl⟩

theorem insertLoop_succeeds (es : Entities) (e : Entity) (cand : EntityId)
    (supply : List EntityId) (h : ∃ c ∈ supply, es.contains c = false) :
    (insertLoop es e cand supply).isSome := by
  induction supply generalizing cand with
  | nil => simp at h
  | cons c cs ih =>
    rw [insertLoop]
    by_cases hc : es.contains cand
    · simp only [hc, if_true]
      by_cases hcv : es.contains c
      · refine ih c ?_
        obtain ⟨x, hx, hxe⟩ := h
        rcases List.mem_cons.mp hx with rfl | hx'
        · simp [hcv] at hxe
        · exact ⟨x, hx', hxe⟩
      · cases cs with
        | nil => rw [insertLoop]; simp [hcv]
        | cons d ds => rw [insertLoop]; simp [hcv]
    · simp [hc]

theorem Entities.lookup_update (es : Entities) (id j : EntityId) (e : Entity) :
    (es.update j e).lookup id = if id = j then some e else es.lookup id :=
  lookupA_insertA id j e es.map

/-- Claim C7: `Entities::insert` with a proposed id that is already present
returns an assigned id different from the proposed id, leaves the occupant
stored under the proposed id unchanged, and stores the inserted entity under
the assigned id (the loop draws fresh ids until a vacant one is found). -/
theorem entities_insert_collision (es : Entities) (e : Entity) (id : EntityId)
    (supply : List EntityId) (aid : EntityId) (es' : Entities) (rest : List EntityId)
    (hocc : es.contains id = true)
    (h : es.insert id e supply = some (aid, es', rest)) :
    aid ≠ id ∧ es'.lookup id = es.lookup id ∧ es'.lookup aid = some e := by
  obtain ⟨hvac, rfl⟩ := insertLoop_spec es e id supply aid es' rest h
  have hne : aid ≠ id := by
    intro heq
    rw [heq, hocc] at hvac
    simp at hvac
  refine ⟨hne, ?_, ?_⟩
  · rw [Entities.lookup_update]
    have : ¬(id = aid) := fun hh => hne hh.symm
    simp [this]
  · rw [Entities.lookup_update]
    simp

/-- Witness for C7 at a concrete registry: `{1 ↦ e₁}` with proposed id `1`
and fresh-id supply `[1, 2]` assigns id `2`. -/
theorem entities_insert_collision_witness :
    (2 : EntityId) ≠ 1 ∧
      (Entities.mk [(2, ⟨"u", 7⟩), (1, ⟨"u", 0⟩)]).lookup 1 =
        (Entities.mk [(1, ⟨"u", 0⟩)]).lookup 1 ∧
      (Entities.mk [(2, ⟨"u", 7⟩), (1, ⟨"u", 0⟩)]).lookup 2 = some ⟨"u", 7⟩ :=
  entities_insert_collision ⟨[(1, ⟨"u", 0⟩)]⟩ ⟨"u", 7⟩ 1 [1, 2] 2
    ⟨[(2, ⟨"u", 7⟩), (1, ⟨"u", 0⟩)]⟩ [] (by decide) (by decide)

/-! ### Time algebra of the coordinator (`session.rs`, `toggle_timer` / `elapsed`) -/

/-- The pause-timer fields of `SessionActor`: `paused_at` (a timestamp) and
`pause_time` (an unsigned `std::time::Duration`). -/
structure TimerSt where
  pausedAt : Option Int
  pauseTime : Nat
deriving DecidableEq, Repr

/-- Embeds `SessionActor::toggle_timer`: if `paused_at` is set, add
`now - paused_at` to `pause_time` (via `to_std().unwrap()`, which panics —
`none` — when `paused_at` lies in the future) and clear `paused_at`;
otherwise set `paused_at = now`. -/
def toggleTimer (st : TimerSt) (now : Int) : Option TimerSt :=
  match st.pausedAt with
  | some t => (toStd (now - t)).map (fun d => ⟨none, st.pauseTime + d⟩)
  | none => some ⟨some now, st.pauseTime⟩

/-- Two applications of `toggle_timer` at the same instant. -/
def toggleTwice (st : TimerSt) (now : Int) : Option TimerSt :=
  (toggleTimer st now).bind (fun s => toggleTimer s now)

/-- Embeds `SessionActor::elapsed`: `started_at.map_or(Duration::default(), |s|
(now - s).to_std().unwrap()) - pause_time`.  The `to_std().unwrap()` panics
when `started_at` is in the future, and the unsigned subtraction of
`pause_time` panics on underflow; both panics are `none`. -/
def elapsed (startedAt : Option Int) (pauseTime : Nat) (now : Int) : Option Nat :=
  match startedAt with
  | none => durSub 0 pauseTime
  | some s => (toStd (now - s)).bind (fun base => durSub base pauseTime)

/-- Claim C6 counterexample:  Starting from `paused_at = Some(t₀)` (here
`t₀ = 0`, `pause_time = 5`, `now = 1000`), applying `toggle_timer` twice
with zero wall-clock advance yields `pause_time = 1005 ≠ 5` and
`paused_at = Some(now) ≠ None`: the claimed round-trip fails for a paused
starting state. -/
theorem toggleTwice_from_paused_counterexample :
    toggleTwice ⟨some 0, 5⟩ 1000 = some ⟨some 1000, 1005⟩ ∧
      (some (1000 : Int) ≠ (none : Option Int) ∧ (1005 : Nat) ≠ 5) := by
  constructor
  · rfl
  · exact ⟨by decide, by decide⟩

/-- Claim C6 (amended):  The double-toggle round-trip holds exactly for the
unpaused starting state: from `paused_at = None` two `toggle_timer` calls at
the same instant restore `pause_time` and leave `paused_at = None`; from
`paused_at = Some(t₀)` with `t₀ ≤ now`, the pair of calls instead adds
`now - t₀` to `pause_time` and leaves the timer re-paused at `now`. -/
theorem toggleTwice_roundtrip :
    (∀ (p : Nat) (now : Int), toggleTwice ⟨none, p⟩ now = some ⟨none, p⟩) ∧
      (∀ (p : Nat) (now t0 : Int), t0 ≤ now →
        toggleTwice ⟨some t0, p⟩ now = some ⟨some now, p + (now - t0).toNat⟩) := by
  constructor
  · intro p now
    simp [toggleTwice, toggleTimer, toStd]
  · intro p now t0 h
    have h0 : (0 : Int) ≤ now - t0 := by omega
    simp [toggleTwice, toggleTimer, toStd, h0]

/-- Witness for C6 (amended): both branches at concrete inputs. -/
theorem toggleTwice_roundtrip_witness :
    toggleTwice ⟨none, 5⟩ 1000 = some ⟨none, 5⟩ ∧
      toggleTwice ⟨some 0, 5⟩ 1000 = some ⟨some 1000, 1005⟩ :=
  ⟨toggleTwice_roundtrip.1 5 1000, toggleTwice_roundtrip.2 5 1000 0 (by decide)⟩

/-- Claim C3 counterexample:  `elapsed()` is not the total function
`max(0, now - started_at) - pause_time`: with `started_at` 15 s in the
future (the start-countdown configuration) it panics on
`to_std().unwrap()` (`none`), where the claimed formula would return `0`;
and with `pause_time` exceeding the wall-clock span it panics on `Duration`
underflow. -/
theorem elapsed_not_total :
    elapsed (some 15000) 0 0 = none ∧ elapsed (some 0) 5000 1000 = none := by
  constructor <;> rfl

/-- Claim C3 (amended):  `elapsed()` computes `(now - started_at) - pause_time`
with panicking (not clamping) subtractions: it is defined exactly when
`started_at ≤ now` and `pause_time ≤ now - started_at`, and then equals
their difference; when `started_at` is unset the base is zero, so the call
is defined (returning `0`) only when `pause_time = 0`. -/
theorem elapsed_spec :
    (∀ (s : Int) (p : Nat) (now : Int), s ≤ now → p ≤ (now - s).toNat →
        elapsed (some s) p now = some ((now - s).toNat - p)) ∧
      (∀ (p : Nat) (now : Int),
        elapsed none p now = if p = 0 then some 0 else none) := by
  constructor
  · intro s p now hs hp
    have h0 : (0 : Int) ≤ now - s := by omega
    simp [elapsed, toStd, durSub, h0, hp]
  · intro p now
    by_cases hp : p = 0 <;> simp [elapsed, durSub, hp]

/-- Witness for C3 (amended): `started_at = 0`, `pause_time = 1000`,
`now = 5000` gives 4 elapsed seconds. -/
theorem elapsed_spec_witness : elapsed (some 0) 1000 5000 = some 4000 :=
  elapsed_spec.1 0 1000 5000 (by decide) (by decide)

/-! ### Tick-interval decisions (`SessionActor::started`, `session.rs`) -/

/-- Embeds `handlers/mod.rs` `ClientStatus`. -/
inductive ClientStatusM
  | loading (t : Int)
  | lostConnection (t : Int)
  | inProgress (d : Nat)
  | ready
  | ended (t : Int)
deriving DecidableEq, Repr

/-- The `PostSession` arm of the tick interval: dispatch `SessionEnd` when
`resolving` is unset, or when
`resolving.signed_duration_since(now).num_seconds() > 30` — note the code
compares `resolving - now`, not `now - resolving`. -/
def postSessionDispatch (resolving : Option Int) (now : Int) : Bool :=
  match resolving with
  | some t => decide (30 < numSecondsOfMs (t - now))
  | none => true

theorem numSecondsOfMs_gt_iff (k : Nat) (d : Int) :
    ((k : Int) < numSecondsOfMs d) ↔ ((k : Int) + 1) * 1000 ≤ d := by
  unfold numSecondsOfMs
  by_cases h : 0 ≤ d
  · simp only [h, if_true]
    omega
  · simp only [h, if_false]
    omega

/-- Claim C2:  The retry branch is dead code: for any `resolving` timestamp
that is not in the future (it is always set to a past instant), the
`PostSession` tick dispatches nothing, because the code compares
`resolving - now > 30 s` instead of `now - resolving > 30 s`.  Evaluated at
the failing input `resolving = Some(0)`, `now = 31 s`: the claim requires a
redispatch, the code is silent. -/
theorem postSession_retry_never_fires :
    postSessionDispatch (some 0) 31000 = false := by
  decide

/-- Context for C2 (not tied to a claim): with `resolving` set at or before
`now`, the dispatch condition is always false, so `SessionEnd` is never
retried. -/
theorem postSessionDispatch_dead (t now : Int) (h : t ≤ now) :
    postSessionDispatch (some t) now = false := by
  simp only [postSessionDispatch, decide_eq_false_iff_not]
  rw [show (30 : Int) = ((30 : Nat) : Int) by rfl, numSecondsOfMs_gt_iff]
  omega

/-- The eviction test of the `Starting(None)` arm: a `Loading`/
`LostConnection` client is sent `Leave` when
`now.signed_duration_since(t).num_seconds() > 60`. -/
def evictBool (c : ClientStatusM) (now : Int) : Bool :=
  match c with
  | .loading t => decide (60 < numSecondsOfMs (now - t))
  | .lostConnection t => decide (60 < numSecondsOfMs (now - t))
  | _ => false

/-- Claim C8 counterexample:  A client whose `Loading` timestamp is 60.5 s
old is strictly more than 60 s old, yet `num_seconds()` truncates the age
to 60 whole seconds and the client is not evicted. -/
theorem evict_sixty_point_five_counterexample :
    (60000 : Int) < 60500 ∧ evictBool (.loading 0) 60500 = false := by
  constructor
  · decide
  · decide

/-- Claim C8 (amended):  A `Loading`/`LostConnection` client is evicted
exactly when its truncated whole-second age exceeds 60, i.e. when it is at
least 61 s (61000 ms) old; in particular a client exactly 60 s old — or
anywhere under 61 s — is not evicted, and no other status is ever
evicted. -/
theorem evict_boundary (c : ClientStatusM) (now : Int) :
    evictBool c now = true ↔
      ∃ t, (c = .loading t ∨ c = .lostConnection t) ∧ 61000 ≤ now - t := by
  cases c with
  | loading t =>
    simp only [evictBool, decide_eq_true_eq]
    rw [show (60 : Int) = ((60 : Nat) : Int) by rfl, numSecondsOfMs_gt_iff]
    constructor
    · intro h
      exact ⟨t, Or.inl rfl, by omega⟩
    · rintro ⟨t', hc, h⟩
      rcases hc with hc | hc <;> cases hc
      omega
  | lostConnection t =>
    simp only [evictBool, decide_eq_true_eq]
    rw [show (60 : Int) = ((60 : Nat) : Int) by rfl, numSecondsOfMs_gt_iff]
    constructor
    · intro h
      exact ⟨t, Or.inr rfl, by omega⟩
    · rintro ⟨t', hc, h⟩
      rcases hc with hc | hc <;> cases hc
      omega
  | inProgress d => simp [evictBool]
  | ready => simp [evictBool]
  | ended t => simp [evictBool]

/-! ### Global Resolver winner computation (`global.rs`, `Handler<SessionResolve>`)

Accounts are strings (`AccountId::from_str` on the pool's declared result
keys is modelled as the identity; the resolver would panic on a malformed
key, which no claim concerns).  A pool's `required_stakes` is a list of
`(declared result key, staked account ids)` pairs, in iteration order. -/

/-- The middle loop of the winner scan for one `results` entry `aid`,
starting from the accumulated `final_result = acc`: a declared result key
equal to `aid` sets the winner to that key and breaks; an occurrence of
`aid` in a required-stakes list sets the winner to that entry's key and
continues scanning. -/
def scanRequired (aid : String) (acc : Option String) :
    List (String × List String) → Option String
  | [] => acc
  | (res, stakes) :: rest =>
    if aid = res then some res
    else if stakes.contains aid then scanRequired aid (some res) rest
    else scanRequired aid acc rest

/-- The full nested scan of `Handler<SessionResolve> for GlobalActor`:
`final_result` starts as `None` and the outer loop folds every `results`
entry through `scanRequired` — with no outer `break`, so later entries
overwrite earlier matches. -/
def computeFinalResult (rs : List (String × List String))
    (results : List (String × Int)) : Option String :=
  results.foldl (fun acc p => scanRequired p.1 acc rs) none

/-- The winner a single `results` entry `aid` would select on its own:
the first declared result key equal to `aid` if the scan reaches one,
otherwise the key of the last required-stakes list containing `aid`. -/
def entryMatch (rs : List (String × List String)) (aid : String) : Option String :=
  match rs with
  | [] => none
  | (res, stakes) :: rest =>
    if aid = res then some res
    else if stakes.contains aid then some ((entryMatch rest aid).getD res)
    else entryMatch rest aid

theorem scanRequired_eq_entryMatch (aid : String) (acc : Option String)
    (rs : List (String × List String)) :
    scanRequired aid acc rs = (entryMatch rs aid).or acc := by
  induction rs generalizing acc with
  | nil => simp [scanRequired, entryMatch]
  | cons p rest ih =>
    obtain ⟨res, stakes⟩ := p
    by_cases h1 : aid = res
    · simp [scanRequired, entryMatch, h1]
    · by_cases h2 : stakes.contains aid
      · simp only [scanRequired, entryMatch, h1, h2, if_false, if_true, ih]
        cases entryMatch rest aid <;> simp [Option.getD, Option.or]
      · have h2' : ¬ aid ∈ stakes := by simpa using h2
        simp [scanRequired, entryMatch, h1, h2, h2', ih]

theorem foldl_or_eq_findSome_reverse {α β : Type} (f : α → Option β)
    (l : List α) (acc : Option β) :
    l.foldl (fun a x => (f x).or a) acc = ((l.reverse).findSome? f).or acc := by
  induction l generalizing acc with
  | nil => simp
  | cons x xs ih =>
    simp only [List.foldl_cons, List.reverse_cons, ih, List.findSome?_append]
    cases hxs : (xs.reverse).findSome? f <;> cases hx : f x <;>
      simp [List.findSome?, hx, Option.or]

/-- Embeds `SessionEnd`'s `results.sort_by(|a, b| b.1.cmp(&a.1))` (`session.rs`):
sort the `(account, end-time)` list descending by end time.  The slice
sort algorithm is abstracted as a stable insertion sort; the claim only
concerns sortedness. -/
def sortResultsDesc (l : List (String × Int)) : List (String × Int) :=
  List.insertionSort (fun a b => b.2 ≤ a.2) l

/-- Claim C1 counterexample:  Pool with declared result keys `alice` and
`bob`; `results = [(alice, t₂), (bob, t₁)]` with `t₂ > t₁` (descending
order).  The claim says the first matching entry `alice` wins and later
entries cannot override it; the code's outer loop has no `break`, so the
later match `bob` overwrites it and `bob` is passed to
`assert_pool_result`. -/
theorem sessionResolve_winner_counterexample :
    computeFinalResult [("alice", []), ("bob", [])] [("alice", 2), ("bob", 1)] =
        some "bob" ∧ "bob" ≠ "alice" := by
  constructor
  · rfl
  · decide

/-- Claim C1 (amended):  The winner passed to `assert_pool_result` is the
declared result key selected by the **last** `results` entry that matches
(the outer loop never breaks, so later entries override earlier ones):
scanning `results` in reverse order, the first entry with a match decides,
and for that entry the winner is the first declared result key equal to its
account, else the key of the last required-stakes list containing it (the
key, not the matching account, is passed).  The `results` list dispatched
by the coordinator is sorted descending by player-session end time. -/
theorem sessionResolve_winner :
    (∀ (rs : List (String × List String)) (results : List (String × Int)),
        computeFinalResult rs results =
          (results.reverse).findSome? (fun p => entryMatch rs p.1)) ∧
      (∀ l : List (String × Int), List.Sorted (fun a b => b.2 ≤ a.2) (sortResultsDesc l)) := by
  constructor
  · intro rs results
    unfold computeFinalResult
    have h : ∀ (acc : Option String),
        results.foldl (fun a p => scanRequired p.1 a rs) acc =
          results.foldl (fun a p => (entryMatch rs p.1).or a) acc := by
      intro acc
      induction results generalizing acc with
      | nil => rfl
      | cons x xs ih => simp [List.foldl_cons, scanRequired_eq_entryMatch, ih]
    rw [h, foldl_or_eq_findSome_reverse]
    cases (results.reverse).findSome? (fun p => entryMatch rs p.1) <;> simp [Option.or]
  · intro l
    haveI : IsTotal (String × Int) (fun a b => b.2 ≤ a.2) := ⟨fun a b => le_total b.2 a.2⟩
    haveI : IsTrans (String × Int) (fun a b => b.2 ≤ a.2) :=
      ⟨fun _ _ _ h1 h2 => le_trans h2 h1⟩
    exact List.sorted_insertionSort _ l

/-! ### Session state and the `Update::Entities` arm (`session.rs`, `types.rs`) -/

/-- Embeds `types.rs` `Position`; the `f64` coordinates are abstracted as integers —
no verified claim computes with them. -/
structure PositionM where
  x : Int
  y : Int
deriving DecidableEq, Repr

/-- Embeds `types.rs` `Spawn`. -/
structure SpawnM where
  scene : String
  zone : PositionM × PositionM
deriving DecidableEq, Repr

/-- Embeds `types.rs` `PlayerStats` (`xp_accrual: u128` is an unbounded `Nat`;
no claim exercises its overflow). -/
structure PlayerStatsM where
  kills : Int
  xpAccrual : Nat
  death : Option Int
deriving DecidableEq, Repr

/-- Embeds `types.rs` `SessionState`.  The serialized `elapsed: f32` mirror and the
opaque `data` map are omitted; no claim touches them. -/
structure SessionStateM where
  spawn : SpawnM
  entities : Entities
  pendingSpawns : List (EntityId × EntityId)
  destroyedEntities : Entities
  stats : List (UserId × PlayerStatsM)
deriving DecidableEq, Repr

/-- Invariant: `pending_spawns` and `entities` share no keys. -/
def pendingEntitiesDisjoint (st : SessionStateM) : Bool :=
  st.pendingSpawns.all (fun p => !(st.entities.contains p.1))

/-- Invariant: `destroyed_entities` and `entities` share no keys. -/
def destroyedEntitiesDisjoint (st : SessionStateM) : Bool :=
  st.destroyedEntities.map.all (fun p => !(st.entities.contains p.1))

/-- The `active` loop of the `Update::Entities` arm: for each entry managed
by the updater (managed set computed once, from the pre-state), `update` the
entity and clear its `pending_spawns` entry. -/
def processActive (managed : List EntityId) (st : SessionStateM)
    (active : List (EntityId × Entity)) : SessionStateM :=
  active.foldl
    (fun s p =>
      if managed.contains p.1 then
        { s with
          entities := s.entities.update p.1 p.2,
          pendingSpawns := eraseA p.1 s.pendingSpawns }
      else s)
    st

/-- The `kill_list` loop: for each managed id present in `entities`, remove
it and insert the removed entity into `destroyed_entities` (via the
fresh-id-generating `Entities::insert`, threading the id supply). -/
def processKills (managed : List EntityId) :
    SessionStateM → List EntityId → List EntityId →
      Option (SessionStateM × List EntityId)
  | st, [], supply => some (st, supply)
  | st, id :: rest, supply =>
    if managed.contains id then
      match st.entities.lookup id with
      | some e =>
        match (st.destroyedEntities).insert id e supply with
        | some (_, destroyed', supply') =>
          processKills managed
            { st with entities := st.entities.erase id, destroyedEntities := destroyed' }
            rest supply'
        | none => none
      | none => processKills managed st rest supply
    else processKills managed st rest supply

/-- The `spawns` loop: for each `(proposed_id, entity)` not already pending,
`Entities::insert` into `entities` and record
`pending_spawns[proposed_id] = assigned_id`. -/
def processSpawns :
    SessionStateM → List (EntityId × Entity) → List EntityId →
      Option (SessionStateM × List EntityId)
  | st, [], supply => some (st, supply)
  | st, (id, e) :: rest, supply =>
    if containsA id st.pendingSpawns then processSpawns st rest supply
    else
      match st.entities.insert id e supply with
      | some (newId, ents', supply') =>
        processSpawns
          { st with entities := ents', pendingSpawns := insertA id newId st.pendingSpawns }
          rest supply'
      | none => none

/-- The whole `Update::Entities` arm of `Handler<SessionUpdate>`: computes
the updater's managed set from the pre-state, then runs the `active`,
`kill_list` and `spawns` loops in order. -/
def processEntitiesUpdate (st : SessionStateM) (updater : UserId)
    (active : List (EntityId × Entity)) (killList : List EntityId)
    (spawns : List (EntityId × Entity)) (supply : List EntityId) :
    Option SessionStateM :=
  let managed := st.entities.managed updater
  let st1 := processActive managed st active
  (processKills managed st1 killList supply).bind fun r =>
    (processSpawns r.1 spawns r.2).map fun r2 => r2.1

theorem containsA_of_mem {α β : Type} [DecidableEq α] (k : α) (v : β) :
    ∀ l : List (α × β), (k, v) ∈ l → containsA k l = true := by
  intro l h
  induction l with
  | nil => simp at h
  | cons p rest ih =>
    rcases List.mem_cons.mp h with rfl | h'
    · simp [containsA, lookupA]
    · by_cases hk : k = p.1
      · obtain ⟨k', v'⟩ := p
        simp_all [containsA, lookupA]
      · obtain ⟨k', v'⟩ := p
        simp only [containsA, lookupA] at *
        rw [if_neg (by simpa using hk)]
        exact ih h'

theorem lookupA_mem {α β : Type} [DecidableEq α] (k : α) (v : β) :
    ∀ l : List (α × β), lookupA k l = some v → (k, v) ∈ l := by
  intro l h
  induction l with
  | nil => simp at h
  | cons p rest ih =>
    obtain ⟨k', v'⟩ := p
    by_cases hk : k = k'
    · rw [lookupA_cons, if_pos hk] at h
      obtain rfl := Option.some.inj h
      exact List.mem_cons.mpr (Or.inl (by rw [hk]))
    · rw [lookupA_cons, if_neg hk] at h
      exact List.mem_cons.mpr (Or.inr (ih h))

theorem Entities.contains_update (es : Entities) (id j : EntityId) (e : Entity) :
    (es.update id e).contains j = if j = id then true else es.contains j := by
  unfold Entities.contains
  rw [Entities.lookup_update]
  by_cases hj : j = id <;> simp [hj]

theorem Entities.lookup_erase (es : Entities) (id j : EntityId) :
    (es.erase id).lookup j = if j = id then none else es.lookup j :=
  lookupA_eraseA j id es.map

theorem Entities.contains_erase (es : Entities) (id j : EntityId) :
    (es.erase id).contains j = if j = id then false else es.contains j := by
  unfold Entities.contains
  rw [Entities.lookup_erase]
  by_cases hj : j = id <;> simp [hj]

theorem Entities.managed_contains (es : Entities) (u : UserId) (id : EntityId)
    (h : id ∈ es.managed u) : es.contains id = true := by
  unfold Entities.managed at h
  obtain ⟨p, hp, hpe⟩ := List.mem_map.mp h
  have hpl : p ∈ es.map := (List.mem_filter.mp hp).1
  have hmem : (id, p.2) ∈ es.map := by
    rw [← hpe]
    exact hpl
  exact containsA_of_mem id p.2 es.map hmem

theorem insertLoop_vacant (es : Entities) (e : Entity) (cand : EntityId)
    (supply : List EntityId) (h : es.contains cand = false) :
    insertLoop es e cand supply = some (cand, es.update cand e, supply) := by
  cases supply <;> simp [insertLoop, h]

theorem processActive_preserves (managed : List EntityId)
    (active : List (EntityId × Entity)) :
    ∀ st : SessionStateM, (∀ id ∈ managed, st.entities.contains id = true) →
      (∀ j, (processActive managed st active).entities.contains j = st.entities.contains j) ∧
        (∀ p ∈ (processActive managed st active).pendingSpawns, p ∈ st.pendingSpawns) ∧
        (processActive managed st active).destroyedEntities = st.destroyedEntities := by
  induction active with
  | nil => exact fun st _ => ⟨fun j => rfl, fun p hp => hp, rfl⟩
  | cons a rest ih =>
    intro st hm
    by_cases hma : managed.contains a.1
    · have ha1 : a.1 ∈ managed := by simpa using hma
      have hca : st.entities.contains a.1 = true := hm a.1 ha1
      have step : processActive managed st (a :: rest) =
          processActive managed
            { st with entities := st.entities.update a.1 a.2,
                      pendingSpawns := eraseA a.1 st.pendingSpawns } rest := by
        simp [processActive, List.foldl_cons, ha1]
      set st1 : SessionStateM :=
        { st with entities := st.entities.update a.1 a.2,
                  pendingSpawns := eraseA a.1 st.pendingSpawns } with hst1
      have hc : ∀ j, st1.entities.contains j = st.entities.contains j := by
        intro j
        show (st.entities.update a.1 a.2).contains j = _
        rw [Entities.contains_update]
        by_cases hj : j = a.1
        · rw [if_pos hj, hj, hca]
        · rw [if_neg hj]
      have hm1 : ∀ id ∈ managed, st1.entities.contains id = true := by
        intro id hid
        rw [hc id]
        exact hm id hid
      obtain ⟨ih1, ih2, ih3⟩ := ih st1 hm1
      refine ⟨?_, ?_, ?_⟩
      · intro j
        rw [step, ih1 j, hc j]
      · intro p hp
        rw [step] at hp
        have hmem := ih2 p hp
        exact (List.mem_filter.mp hmem).1
      · rw [step, ih3]
    · have hnm : ¬ a.1 ∈ managed := by simpa using hma
      have step : processActive managed st (a :: rest) = processActive managed st rest := by
        simp [processActive, List.foldl_cons, hnm]
      obtain ⟨ih1, ih2, ih3⟩ := ih st hm
      exact ⟨fun j => by rw [step, ih1 j],
        fun p hp => ih2 p (by rwa [step] at hp),
        by rw [step, ih3]⟩

theorem processKills_preserves (managed : List EntityId) (kills : List EntityId) :
    ∀ (st : SessionStateM) (supply : List EntityId),
      pendingEntitiesDisjoint st = true → destroyedEntitiesDisjoint st = true →
      ∃ st', processKills managed st kills supply = some (st', supply) ∧
        pendingEntitiesDisjoint st' = true ∧ destroyedEntitiesDisjoint st' = true := by
  induction kills with
  | nil => exact fun st supply hpd hdd => ⟨st, rfl, hpd, hdd⟩
  | cons id rest ih =>
    intro st supply hpd hdd
    by_cases hma : managed.contains id
    · have hmem : id ∈ managed := by simpa using hma
      cases hlk : st.entities.lookup id with
      | none =>
        have step : processKills managed st (id :: rest) supply =
            processKills managed st rest supply := by
          simp [processKills, hmem, hlk]
        obtain ⟨st', h1, h2, h3⟩ := ih st supply hpd hdd
        exact ⟨st', by rw [step, h1], h2, h3⟩
      | some e =>
        have hcont : st.entities.contains id = true := by
          simp [Entities.contains, hlk]
        have hdnc : st.destroyedEntities.contains id = false := by
          cases hdc : st.destroyedEntities.lookup id with
          | none => simp [Entities.contains, hdc]
          | some v =>
            have hm2 : (id, v) ∈ st.destroyedEntities.map := lookupA_mem id v _ hdc
            have hbad := (List.all_eq_true.mp hdd) _ hm2
            rw [hcont] at hbad
            simp at hbad
        have hins : st.destroyedEntities.insert id e supply =
            some (id, st.destroyedEntities.update id e, supply) :=
          insertLoop_vacant _ _ _ _ hdnc
        set st1 : SessionStateM :=
          { st with entities := st.entities.erase id,
                    destroyedEntities := st.destroyedEntities.update id e } with hst1
        have step : processKills managed st (id :: rest) supply =
            processKills managed st1 rest supply := by
          simp [processKills, hmem, hlk, hins]
        have hpd1 : pendingEntitiesDisjoint st1 = true := by
          rw [pendingEntitiesDisjoint, List.all_eq_true]
          intro p hp
          have hold := (List.all_eq_true.mp hpd) p hp
          have hold' : st.entities.contains p.1 = false := by
            cases hcp : st.entities.contains p.1
            · rfl
            · rw [hcp] at hold
              simp at hold
          have hce : st1.entities.contains p.1 = false := by
            show (st.entities.erase id).contains p.1 = false
            rw [Entities.contains_erase]
            by_cases hpj : p.1 = id
            · rw [if_pos hpj]
            · rw [if_neg hpj, hold']
          show (!(st1.entities.contains p.1)) = true
          rw [hce]
          rfl
        have hdd1 : destroyedEntitiesDisjoint st1 = true := by
          rw [destroyedEntitiesDisjoint, List.all_eq_true]
          intro p hp
          have hce : st1.entities.contains p.1 = false := by
            show (st.entities.erase id).contains p.1 = false
            rw [Entities.contains_erase]
            by_cases hpj : p.1 = id
            · rw [if_pos hpj]
            · rw [if_neg hpj]
              have hpm : p ∈ st.destroyedEntities.map := by
                have hin : p ∈ insertA id e st.destroyedEntities.map := hp
                rcases List.mem_cons.mp hin with rfl | h'
                · simp at hpj
                · exact (List.mem_filter.mp h').1
              have hold := (List.all_eq_true.mp hdd) p hpm
              cases hcp : st.entities.contains p.1
              · rfl
              · rw [hcp] at hold
                simp at hold
          show (!(st1.entities.contains p.1)) = true
          rw [hce]
          rfl
        obtain ⟨st', h1, h2, h3⟩ := ih st1 supply hpd1 hdd1
        exact ⟨st', by rw [step, h1], h2, h3⟩
    · have hnm : ¬ id ∈ managed := by simpa using hma
      have step : processKills managed st (id :: rest) supply =
          processKills managed st rest supply := by
        simp [processKills, hnm]
      obtain ⟨st', h1, h2, h3⟩ := ih st supply hpd hdd
      exact ⟨st', by rw [step, h1], h2, h3⟩

/-- A default spawn zone for concrete states. -/
def spawn0 : SpawnM := ⟨"BaseScene", ⟨⟨0, 0⟩, ⟨0, 0⟩⟩⟩

/-- A concrete entity managed by `"u"`. -/
def eU : Entity := ⟨"u", 0⟩

/-- Claim C4 counterexample:  Both disjointness invariants are broken by the
spawn path of `Update::Entities`, starting from states satisfying them:
spawning proposed id `5` into an empty registry records
`pending_spawns[5] = 5` while `5` enters `entities` (pending/entities
disjointness fails), and spawning proposed id `5` when `5` lies in
`destroyed_entities` re-inserts `5` into `entities`
(destroyed/entities disjointness fails). -/
theorem entitiesUpdate_spawn_breaks_disjointness :
    ((processEntitiesUpdate ⟨spawn0, ⟨[]⟩, [], ⟨[]⟩, []⟩ "u" [] [] [(5, eU)] []).map
        pendingEntitiesDisjoint = some false) ∧
      ((processEntitiesUpdate ⟨spawn0, ⟨[]⟩, [], ⟨[(5, eU)]⟩, []⟩ "u" [] [] [(5, eU)] []).map
        destroyedEntitiesDisjoint = some false) := by
  constructor <;> rfl

/-- Claim C4 (amended):  The `active` and `kill_list` paths of
`Update::Entities` preserve both invariants: for any state in which
`pending_spawns` and `entities` share no keys and `destroyed_entities` and
`entities` share no keys, processing an update with **no spawns** yields a
state satisfying both again (the spawn path, by contrast, violates both —
see the counterexample). -/
theorem entitiesUpdate_no_spawns_preserves (st : SessionStateM) (updater : UserId)
    (active : List (EntityId × Entity)) (killList : List EntityId)
    (supply : List EntityId) (st' : SessionStateM)
    (hpd : pendingEntitiesDisjoint st = true)
    (hdd : destroyedEntitiesDisjoint st = true)
    (h : processEntitiesUpdate st updater active killList [] supply = some st') :
    pendingEntitiesDisjoint st' = true ∧ destroyedEntitiesDisjoint st' = true := by
  have hm : ∀ id ∈ st.entities.managed updater, st.entities.contains id = true :=
    fun id hid => Entities.managed_contains st.entities updater id hid
  obtain ⟨hc, hpend, hdest⟩ :=
    processActive_preserves (st.entities.managed updater) active st hm
  set st1 := processActive (st.entities.managed updater) st active with hst1
  have hpd1 : pendingEntitiesDisjoint st1 = true := by
    rw [pendingEntitiesDisjoint, List.all_eq_true]
    intro p hp
    have hpm := hpend p hp
    have hold := (List.all_eq_true.mp hpd) p hpm
    have hold' : st.entities.contains p.1 = false := by
      cases hcp : st.entities.contains p.1
      · rfl
      · rw [hcp] at hold
        simp at hold
    show (!(st1.entities.contains p.1)) = true
    rw [hc p.1, hold']
    rfl
  have hdd1 : destroyedEntitiesDisjoint st1 = true := by
    rw [destroyedEntitiesDisjoint, List.all_eq_true]
    intro p hp
    rw [hdest] at hp
    have hold := (List.all_eq_true.mp hdd) p hp
    have hold' : st.entities.contains p.1 = false := by
      cases hcp : st.entities.contains p.1
      · rfl
      · rw [hcp] at hold
        simp at hold
    show (!(st1.entities.contains p.1)) = true
    rw [hc p.1, hold']
    rfl
  obtain ⟨st2, hk, h2, h3⟩ :=
    processKills_preserves (st.entities.managed updater) killList st1 supply hpd1 hdd1
  have hmain : processEntitiesUpdate st updater active killList [] supply = some st2 := by
    show (processKills (st.entities.managed updater)
        (processActive (st.entities.managed updater) st active) killList supply).bind
        (fun r => (processSpawns r.1 [] r.2).map fun r2 => r2.1) = some st2
    rw [← hst1, hk]
    rfl
  have heq : st' = st2 := Option.some.inj (h.symm.trans hmain)
  rw [heq]
  exact ⟨h2, h3⟩

/-- Witness for C4 (amended): killing entity `1` from the registry `{1 ↦ eU}`
moves it into `destroyed_entities` and both invariants still hold. -/
theorem entitiesUpdate_no_spawns_preserves_witness :
    pendingEntitiesDisjoint ⟨spawn0, ⟨[]⟩, [], ⟨[(1, eU)]⟩, []⟩ = true ∧
      destroyedEntitiesDisjoint ⟨spawn0, ⟨[]⟩, [], ⟨[(1, eU)]⟩, []⟩ = true :=
  entitiesUpdate_no_spawns_preserves ⟨spawn0, ⟨[(1, eU)]⟩, [], ⟨[]⟩, []⟩ "u" [] [1] []
    ⟨spawn0, ⟨[]⟩, [], ⟨[(1, eU)]⟩, []⟩ (by decide) (by decide) (by rfl)

/-! ### Client roster and message handlers (`handlers/mod.rs`, `session.rs`) -/

/-- Embeds `handlers/mod.rs` `ClientInfo`.  The transport address is an opaque
handle; the per-tick millisecond samples (`ms`) are omitted — no claim
touches them. -/
structure ClientInfoM where
  startedAt : Int
  lastUpdate : Int
  actor : Nat
  accountId : Option String
  status : ClientStatusM
deriving DecidableEq, Repr

/-- Embeds `ClientInfo::new`: joins in status `Loading(now)`. -/
def ClientInfoM.new (actor : Nat) (accountId : Option String) (now : Int) : ClientInfoM :=
  ⟨now, now, actor, accountId, .loading now⟩

/-- Embeds `types.rs` `PlayerInfo`. -/
structure PlayerInfoM where
  managedEntities : List EntityId
  stats : PlayerStatsM
  status : ClientStatusM
deriving DecidableEq, Repr

/-- Embeds `SessionState::player_info`. -/
def SessionStateM.playerInfo (st : SessionStateM) (id : UserId) (c : ClientInfoM) :
    PlayerInfoM :=
  ⟨st.entities.managed id, (lookupA id st.stats).getD ⟨0, 0, none⟩, c.status⟩

/-- Embeds `Handler<Join> for SessionActor`: looks the user's transport handle up
in the global `CLIENTS` map with `.get(&user_id).unwrap()` — a missing
handle panics (`none`).  Otherwise a `ClientInfo` is inserted into the
roster, the join notification is broadcast, `set_managed` reassigns the
joiner's entities, and the state plus the per-player info map are
returned. -/
def joinHandler (clientsGlobal : List (UserId × Nat))
    (roster : List (UserId × ClientInfoM)) (st : SessionStateM) (userId : UserId)
    (managedEntities : List EntityId) (accountId : Option String) (now : Int) :
    Option (List (UserId × ClientInfoM) × SessionStateM ×
      List (UserId × PlayerInfoM) × String) :=
  match lookupA userId clientsGlobal with
  | none => none
  | some actor =>
    let roster' := insertA userId (ClientInfoM.new actor accountId now) roster
    let notif := userId ++ " joined."
    let st' := { st with entities := st.entities.setManaged managedEntities userId }
    let players := roster'.map (fun p => (p.1, st'.playerInfo p.1 p.2))
    some (roster', st', players, notif)

/-- Claim C5 counterexample:  A `Join` for a user with no transport handle in
the global `CLIENTS` map does not fail silently: the handler panics on the
`unwrap` (`none`) instead of completing with the state unchanged. -/
theorem join_missing_client_counterexample :
    joinHandler [] [] ⟨spawn0, ⟨[]⟩, [], ⟨[]⟩, []⟩ "alice" [] none 0 = none := by
  rfl

/-- Claim C5 (amended):  When the joining user has no transport handle in the
global `CLIENTS` map, the handler panics (`.get(&user_id).unwrap()`) rather
than failing silently; the panic occurs before any mutation, so no
`ClientInfo` is inserted, no join notification is produced and the session
state (including entity managers) is untouched — but no value is returned
either. -/
theorem join_missing_client_panics (clientsGlobal : List (UserId × Nat))
    (roster : List (UserId × ClientInfoM)) (st : SessionStateM) (userId : UserId)
    (managedEntities : List EntityId) (accountId : Option String) (now : Int)
    (h : lookupA userId clientsGlobal = none) :
    joinHandler clientsGlobal roster st userId managedEntities accountId now = none := by
  unfold joinHandler
  rw [h]

/-- Witness for C5 (amended) at an empty `CLIENTS` map. -/
theorem join_missing_client_panics_witness :
    joinHandler [] [("bob", ⟨0, 0, 0, none, .ready⟩)] ⟨spawn0, ⟨[]⟩, [], ⟨[]⟩, []⟩
      "alice" [] none 0 = none :=
  join_missing_client_panics [] [("bob", ⟨0, 0, 0, none, .ready⟩)]
    ⟨spawn0, ⟨[]⟩, [], ⟨[]⟩, []⟩ "alice" [] none 0 rfl

/-- Embeds `types.rs` `SessionStatus`. -/
inductive SessionStatusM
  | starting (t : Option Nat)
  | inProgress (t : Nat)
  | standby (pausedAt : Int) (forDuration : Option Nat) (pausedBy : Option UserId)
  | postSession
deriving DecidableEq, Repr

/-- The mutable state of `SessionActor` touched by the verified handlers
(ids, logger and tick instant omitted). -/
structure SessionActorM where
  host : UserId
  clients : List (UserId × ClientInfoM)
  state : SessionStateM
  status : SessionStatusM
  startedAt : Option Int
  duration : Nat
  pauseTime : Nat
  pausedAt : Option Int
  resolving : Option Int
deriving DecidableEq, Repr

/-- Embeds `SessionActor::toggle_timer` on the actor record. -/
def toggleTimerA (a : SessionActorM) (now : Int) : Option SessionActorM :=
  (toggleTimer ⟨a.pausedAt, a.pauseTime⟩ now).map
    fun t => { a with pausedAt := t.pausedAt, pauseTime := t.pauseTime }

/-- Embeds `SessionActor::elapsed` on the actor record. -/
def elapsedA (a : SessionActorM) (now : Int) : Option Nat :=
  elapsed a.startedAt a.pauseTime now

/-- Embeds `messages.rs` `Update` (the variants dispatched by
`Handler<SessionUpdate>`). -/
inductive UpdateM
  | affect (affector : EntityId) (affectors : List EntityId) (affected : List EntityId)
  | entities (active : List (EntityId × Entity)) (killList : List EntityId)
      (spawns : List (EntityId × Entity))
  | changeSpawn (s : SpawnM)
  | stats (s : PlayerStatsM)
  | status (s : ClientStatusM)
  | pause (d : Option Nat)
  | resume
  | endSession
deriving DecidableEq, Repr

/-- The unconditional epilogue of `Handler<SessionUpdate>`:
`clients.get_mut(&updater).unwrap().last_update = Instant::now()` — panics
(`none`) when the updater is not in the roster. -/
def stampLastUpdate (updater : UserId) (now : Int) (a : SessionActorM) :
    Option SessionActorM :=
  match lookupA updater a.clients with
  | some ci => some { a with clients := insertA updater { ci with lastUpdate := now } a.clients }
  | none => none

/-- The `match update { ... }` dispatch of `Handler<SessionUpdate>` (the
`Affect` arm only forwards messages; `ChangeSpawn`, `Pause(None)` and `End`
are guarded by host identity and fall through to the catch-all no-op
otherwise). -/
def sessionUpdateArm (act : SessionActorM) (updater : UserId) (u : UpdateM) (now : Int)
    (supply : List EntityId) : Option SessionActorM :=
  match u with
  | .affect _ _ _ => some act
  | .entities active killList spawns =>
    (processEntitiesUpdate act.state updater active killList spawns supply).map
      fun st' => { act with state := st' }
  | .changeSpawn s =>
    if updater = act.host then some { act with state := { act.state with spawn := s } }
    else some act
  | .stats s =>
    some { act with state := { act.state with stats := insertA updater s act.state.stats } }
  | .status s =>
    match lookupA updater act.clients with
    | some ci => some { act with clients := insertA updater { ci with status := s } act.clients }
    | none => none
  | .pause none =>
    if updater = act.host then
      match act.status with
      | .inProgress _ =>
        (toggleTimerA act now).map fun a => { a with status := .standby now none (some updater) }
      | _ => some act
    else some act
  | .pause (some d) =>
    match act.status with
    | .inProgress _ =>
      (toggleTimerA act now).map fun a => { a with status := .standby now (some d) (some updater) }
    | _ => some act
  | .resume =>
    match act.status with
    | .standby _ _ b =>
      if updater = act.host ∨ b = some updater then
        (toggleTimerA act now).bind fun a =>
          (elapsedA a now).map fun e => { a with status := .inProgress e }
      else some act
    | _ => some act
  | .endSession =>
    if updater = act.host then
      match act.status with
      | .inProgress _ => some { act with status := .postSession }
      | _ => some act
    else some act

/-- Embeds `Handler<SessionUpdate> for SessionActor`: dispatch on the `Update`
variant, then unconditionally stamp the updater's `last_update`. -/
def sessionUpdate (act : SessionActorM) (updater : UserId) (u : UpdateM) (now : Int)
    (supply : List EntityId) : Option SessionActorM :=
  (sessionUpdateArm act updater u now supply).bind (stampLastUpdate updater now)

theorem toggleTimerA_clients (act a : SessionActorM) (now : Int)
    (h : toggleTimerA act now = some a) : a.clients = act.clients := by
  rcases Option.map_eq_some'.mp h with ⟨t, _, rfl⟩
  rfl

theorem sessionUpdateArm_clients (act : SessionActorM) (updater : UserId) (u : UpdateM)
    (now : Int) (supply : List EntityId) (a : SessionActorM)
    (h : sessionUpdateArm act updater u now supply = some a) :
    a.clients = act.clients ∨ lookupA updater act.clients ≠ none := by
  cases u with
  | affect f fs af =>
    simp only [sessionUpdateArm] at h
    obtain rfl := Option.some.inj h
    exact Or.inl rfl
  | entities active killList spawns =>
    simp only [sessionUpdateArm] at h
    rcases Option.map_eq_some'.mp h with ⟨st', _, rfl⟩
    exact Or.inl rfl
  | changeSpawn s =>
    simp only [sessionUpdateArm] at h
    by_cases hh : updater = act.host
    · rw [if_pos hh] at h
      obtain rfl := Option.some.inj h
      exact Or.inl rfl
    · rw [if_neg hh] at h
      obtain rfl := Option.some.inj h
      exact Or.inl rfl
  | stats s =>
    simp only [sessionUpdateArm] at h
    obtain rfl := Option.some.inj h
    exact Or.inl rfl
  | status s =>
    simp only [sessionUpdateArm] at h
    cases hl : lookupA updater act.clients with
    | none =>
      rw [hl] at h
      simp at h
    | some ci =>
      refine Or.inr ?_
      simp [hl]
  | pause d =>
    cases d with
    | none =>
      simp only [sessionUpdateArm] at h
      by_cases hh : updater = act.host
      · rw [if_pos hh] at h
        cases hst : act.status with
        | inProgress t =>
          rw [hst] at h
          rcases Option.map_eq_some'.mp h with ⟨a1, htg, rfl⟩
          exact Or.inl (toggleTimerA_clients act a1 now htg)
        | starting t =>
          rw [hst] at h
          obtain rfl := Option.some.inj h
          exact Or.inl rfl
        | standby p fd b =>
          rw [hst] at h
          obtain rfl := Option.some.inj h
          exact Or.inl rfl
        | postSession =>
          rw [hst] at h
          obtain rfl := Option.some.inj h
          exact Or.inl rfl
      · rw [if_neg hh] at h
        obtain rfl := Option.some.inj h
        exact Or.inl rfl
    | some dd =>
      simp only [sessionUpdateArm] at h
      cases hst : act.status with
      | inProgress t =>
        rw [hst] at h
        rcases Option.map_eq_some'.mp h with ⟨a1, htg, rfl⟩
        exact Or.inl (toggleTimerA_clients act a1 now htg)
      | starting t =>
        rw [hst] at h
        obtain rfl := Option.some.inj h
        exact Or.inl rfl
      | standby p fd b =>
        rw [hst] at h
        obtain rfl := Option.some.inj h
        exact Or.inl rfl
      | postSession =>
        rw [hst] at h
        obtain rfl := Option.some.inj h
        exact Or.inl rfl
  | resume =>
    simp only [sessionUpdateArm] at h
    cases hst : act.status with
    | standby p fd b =>
      rw [hst] at h
      have h' : (if updater = act.host ∨ b = some updater then
          (toggleTimerA act now).bind fun a1 =>
            (elapsedA a1 now).map fun e => { a1 with status := SessionStatusM.inProgress e }
        else some act) = some a := h
      by_cases hh : updater = act.host ∨ b = some updater
      · rw [if_pos hh] at h'
        rcases Option.bind_eq_some.mp h' with ⟨a1, htg, h2⟩
        rcases Option.map_eq_some'.mp h2 with ⟨e, _, rfl⟩
        exact Or.inl (toggleTimerA_clients act a1 now htg)
      · rw [if_neg hh] at h'
        obtain rfl := Option.some.inj h'
        exact Or.inl rfl
    | starting t =>
      rw [hst] at h
      obtain rfl := Option.some.inj h
      exact Or.inl rfl
    | inProgress t =>
      rw [hst] at h
      obtain rfl := Option.some.inj h
      exact Or.inl rfl
    | postSession =>
      rw [hst] at h
      obtain rfl := Option.some.inj h
      exact Or.inl rfl
  | endSession =>
    simp only [sessionUpdateArm] at h
    by_cases hh : updater = act.host
    · rw [if_pos hh] at h
      cases hst : act.status with
      | inProgress t =>
        rw [hst] at h
        obtain rfl := Option.some.inj h
        exact Or.inl rfl
      | starting t =>
        rw [hst] at h
        obtain rfl := Option.some.inj h
        exact Or.inl rfl
      | standby p fd b =>
        rw [hst] at h
        obtain rfl := Option.some.inj h
        exact Or.inl rfl
      | postSession =>
        rw [hst] at h
        obtain rfl := Option.some.inj h
        exact Or.inl rfl
    · rw [if_neg hh] at h
      obtain rfl := Option.some.inj h
      exact Or.inl rfl

/-- Claim C9:  The `SessionUpdate` handler is total only when the updater is a
current client: whatever the `Update` variant, an updater absent from the
roster reaches an unguarded `unwrap` (the `Status` arm's `get_mut`, or the
unconditional `last_update` stamp) and the handler panics (`none`) instead
of silently dropping the message. -/
theorem sessionUpdate_absent_updater_panics (act : SessionActorM) (updater : UserId)
    (u : UpdateM) (now : Int) (supply : List EntityId)
    (h : lookupA updater act.clients = none) :
    sessionUpdate act updater u now supply = none := by
  unfold sessionUpdate
  cases harm : sessionUpdateArm act updater u now supply with
  | none => rfl
  | some a =>
    rcases sessionUpdateArm_clients act updater u now supply a harm with hc | hc
    · show stampLastUpdate updater now a = none
      unfold stampLastUpdate
      rw [hc, h]
    · exact (hc h).elim

/-- Witness for C9: an updater absent from an empty roster panics the
handler on a `Stats` update. -/
theorem sessionUpdate_absent_updater_panics_witness :
    sessionUpdate
      ⟨"h", [], ⟨spawn0, ⟨[]⟩, [], ⟨[]⟩, []⟩, .postSession, none, 0, 0, none, none⟩
      "ghost" (.stats ⟨0, 0, none⟩) 0 [] = none :=
  sessionUpdate_absent_updater_panics
    ⟨"h", [], ⟨spawn0, ⟨[]⟩, [], ⟨[]⟩, []⟩, .postSession, none, 0, 0, none, none⟩
    "ghost" (.stats ⟨0, 0, none⟩) 0 [] rfl

/-! ### The `Starting(None)` ready branch of the tick (`session.rs` 225-256) -/

/-- The readiness check of the `Starting(None)` arm: every client is
`Ready` or `Ended` (vacuously true on an empty roster). -/
def allReadyOrEnded (clients : List (UserId × ClientInfoM)) : Bool :=
  clients.all fun p =>
    match p.2.status with
    | .ready => true
    | .ended _ => true
    | _ => false

/-- The client loop of the ready branch: each client's status is set to
`InProgress((now - client.started_at).to_std().unwrap())` (the unwrap
panics — `none` — on a client start timestamp in the future). -/
def setClientsInProgress (now : Int) :
    List (UserId × ClientInfoM) → Option (List (UserId × ClientInfoM))
  | [] => some []
  | (id, ci) :: rest =>
    (toStd (now - ci.startedAt)).bind fun d =>
      (setClientsInProgress now rest).map fun r =>
        (id, { ci with status := .inProgress d }) :: r

/-- The ready branch of the `Starting(None)` tick arm, staged as the code
executes it: first `started_at` is written as `now + 15 s`; then the local
countdown value `t` is computed as
`started_at.map(|s| now.signed_duration_since(s).to_std().unwrap())` — on
`now - (now + 15 s) < 0` the unwrap panics — and only then would the
client loop run.  Returns the written `started_at` together with the rest
of the branch (`none` = panic). -/
def startingReadyTick (clients : List (UserId × ClientInfoM)) (now : Int) :
    Int × Option (List (UserId × ClientInfoM)) :=
  let newStartedAt := now + 15000
  (newStartedAt, (toStd (now - newStartedAt)).bind fun _ => setClientsInProgress now clients)

/-- Claim C10 counterexample:  In `Starting(None)` with an empty roster the
readiness check is vacuously true and the branch is taken, but the tick
does not "begin the start countdown": right after writing
`started_at = now + 15 s` it panics computing the local countdown value
(`to_std().unwrap()` of the negative `now - started_at`), so the client
loop never runs and the status never becomes `Starting(Some(_))`. -/
theorem startingNone_empty_roster_counterexample :
    allReadyOrEnded [] = true ∧ startingReadyTick [] 0 = (15000, none) := by
  constructor <;> rfl

/-- Claim C10 (amended):  With an empty roster the readiness check of
`Starting(None)` is vacuously true, so the ready branch runs with no client
ever having joined; it writes `started_at = now + 15 s` and then
invariably panics on `to_std().unwrap()` of `now - (now + 15 s) = -15 s`
(for any roster), so the start countdown is never entered. -/
theorem startingNone_vacuous_start :
    allReadyOrEnded [] = true ∧
      ∀ (clients : List (UserId × ClientInfoM)) (now : Int),
        startingReadyTick clients now = (now + 15000, none) := by
  refine ⟨rfl, ?_⟩
  intro clients now
  have h : toStd (now - (now + 15000)) = none := by
    unfold toStd
    rw [if_neg]
    omega
  show (now + 15000, (toStd (now - (now + 15000))).bind
    fun _ => setClientsInProgress now clients) = (now + 15000, none)
  rw [h]
  rfl

end DeltServer
